import Mathlib

-- Verification development for the WebsiteScraper program (src/WebsiteScraper/app.py).
-- The Python code is shallowly embedded: pure string manipulation is modelled over
-- `List Char`, the CSS query engine of BeautifulSoup (`soup.select`, `find_all`,
-- `find_previous`) and the `urllib.parse.urljoin` resolver are treated as oracle
-- parameters (the program only consumes their results), and the stateful crawl loop
-- is modelled as explicit state passing.  Each definition carries a comment naming
-- the source construct it embeds.

namespace WebsiteScraper

/-! ## String library models

Models of the Python / library string primitives used by `app.py`.
Strings are manipulated through their character lists. -/

-- Model of Python `str.startswith`.
def strStartsWith (s p : String) : Bool := p.data.isPrefixOf s.data

-- Model of Python `str.endswith`.
def strEndsWith (s p : String) : Bool := p.data.isSuffixOf s.data

-- Bool-valued contiguous-sublist test on character lists.
def listInfix (needle : List Char) : List Char → Bool
  | [] => needle.isPrefixOf []
  | c :: rest => needle.isPrefixOf (c :: rest) || listInfix needle rest

-- Model of Python `needle in hay` substring containment.
def strSubstrOf (needle hay : String) : Bool := listInfix needle.data hay.data

-- Model of Python `str.lower` (ASCII case folding suffices for the
-- keywords and suffixes the program compares against).
def lowerStr (s : String) : String := ⟨s.data.map Char.toLower⟩

-- Model of Python `str.strip` (drop leading and trailing whitespace).
def stripStr (s : String) : String :=
  ⟨((s.data.dropWhile Char.isWhitespace).reverse.dropWhile Char.isWhitespace).reverse⟩

-- Model of Python slicing `s[:n]`.
def takeStr (n : Nat) (s : String) : String := ⟨s.data.take n⟩

-- Model of `urllib.parse.urlunparse(urllib.parse.urlparse(u)._replace(fragment=''))`:
-- for an http(s) URL the fragment is everything from the first `#` on, so removing
-- it truncates the string at the first `#`.
def stripFragment (s : String) : String := ⟨s.data.takeWhile (fun c => c != '#')⟩

-- Model of `"sep".join(xs)`.
def joinSep (sep : String) : List String → String
  | [] => ""
  | [x] => x
  | x :: y :: rest => x ++ sep ++ joinSep sep (y :: rest)

-- Splits a character list at the first occurrence of `"://"`.
def splitScheme : List Char → Option (List Char × List Char)
  | [] => none
  | ':' :: '/' :: '/' :: rest => some ([], rest)
  | c :: rest =>
    match splitScheme rest with
    | none => none
    | some (a, b) => some (c :: a, b)

-- Model of `f"{urlparse(u).scheme}://{urlparse(u).netloc}"` (app.py line 124) for
-- http(s)-style URLs: the scheme is what stands before the first `"://"` and the
-- netloc runs up to the next `/`, `?` or `#`.  A URL with no `"://"` has empty
-- scheme and netloc, matching `urlparse` on scheme-less input.
def baseDomainOf (u : String) : String :=
  match splitScheme u.data with
  | none => "://"
  | some (sch, rest) =>
    ⟨sch ++ (':' :: '/' :: '/' :: rest.takeWhile (fun c => c ≠ '/' ∧ c ≠ '?' ∧ c ≠ '#'))⟩

-- Model of posix `os.path.join(a, b)` for a relative second component.
def pathJoin (a b : String) : String :=
  if a = "" then b
  else if strEndsWith a ("/") then a ++ b
  else a ++ "/" ++ b

/-! ## Navigation link extractor (`WebScraper.find_navigation_links`)

The document is abstracted by the results the BeautifulSoup query engine returns
for each CSS selector string:
 * `select sel` — the elements matched by `soup.select(sel)`, each element given
   as the list of `href` values of its `find_all('a', href=True)` anchors
   (those anchors all carry an href attribute);
 * `selectAnchors sel` — for the fallback selectors, which match anchors
   directly, the matched anchors' optional `href` attributes (`link.get('href')`).
`urljoin` is the `urllib.parse.urljoin` resolver, passed as an oracle. -/

structure NavDoc where
  select : String → List (List String)
  selectAnchors : String → List (Option String)

-- The `nav_selectors` list of app.py lines 127-143, in source order.
def nav_selectors : List String :=
  ["nav", "header nav",
   ".navbar", ".navigation", ".nav", ".menu", ".main-nav", ".primary-nav",
   ".header-nav", ".site-nav", ".top-nav", ".nav-menu", ".nav-bar",
   "#navbar", "#navigation", "#nav", "#menu", "#main-nav", "#primary-nav",
   "#header-nav", "#site-nav", "#top-nav",
   "header",
   "[role=\"navigation\"]",
   ".header", ".site-header", ".main-header"]

-- The `fallback_selectors` list of app.py lines 193-197.
def fallback_selectors : List String := ["ul li a", ".menu-item a", ".nav-item a"]

-- app.py line 162 / 204: skip empty hrefs, anchors, mailto: and tel: targets.
def skipHref (href : String) : Bool :=
  href = "" || strStartsWith href ("#") || strStartsWith href ("mailto:")
    || strStartsWith href ("tel:")

-- app.py lines 165-173: relative-to-absolute conversion for navigation hrefs
-- (root-relative hrefs are prefixed with the base domain).
def navAbsolute (urljoin : String → String → String)
    (base_url base_domain href : String) : String :=
  if strStartsWith href ("//") then "https:" ++ href
  else if strStartsWith href ("/") then base_domain ++ href
  else if !(strStartsWith href ("http://") || strStartsWith href ("https://")) then
    urljoin base_url href
  else href

-- Model of Python `set.add` on a deduplicated list.
def setAdd (l : List String) (x : String) : List String :=
  if x ∈ l then l else l ++ [x]

-- app.py lines 158-181: filter one href, resolve it, and keep it (fragment-stripped)
-- when its absolute form starts with the base domain; the Bool is `nav_links_found`.
def processHref (urljoin : String → String → String) (base_url base_domain : String)
    (acc : List String × Bool) (href : String) : List String × Bool :=
  if skipHref href then acc
  else
    let absolute_url := navAbsolute urljoin base_url base_domain href
    if strStartsWith absolute_url base_domain then
      (setAdd acc.1 (stripFragment absolute_url), true)
    else acc

-- app.py lines 150-181: process every anchor of every element matched by one selector.
def processSelector (urljoin : String → String → String) (doc : NavDoc)
    (base_url base_domain : String) (acc : List String × Bool) (sel : String) :
    List String × Bool :=
  (doc.select sel).foldl
    (fun a el => el.foldl (processHref urljoin base_url base_domain) a) acc

-- app.py lines 148-188: try each selector in order; once `nav_links_found` is set
-- after a selector, stop trying the others.
def primaryLoop (urljoin : String → String → String) (doc : NavDoc)
    (base_url base_domain : String) :
    List String × Bool → List String → List String × Bool
  | acc, [] => acc
  | acc, sel :: rest =>
    let acc' := processSelector urljoin doc base_url base_domain acc sel
    if acc'.2 then acc'
    else primaryLoop urljoin doc base_url base_domain acc' rest

-- app.py lines 199-220: one fallback selector, capped to the first 10 anchors.
def processFallback (urljoin : String → String → String) (doc : NavDoc)
    (base_url base_domain : String) (links : List String) (sel : String) :
    List String :=
  ((doc.selectAnchors sel).take 10).foldl
    (fun a hOpt =>
      match hOpt with
      | none => a
      | some href =>
        if skipHref href then a
        else
          let absolute_url := navAbsolute urljoin base_url base_domain href
          if strStartsWith absolute_url base_domain then
            setAdd a (stripFragment absolute_url)
          else a)
    links

-- app.py lines 199-224: try each fallback selector; stop once links are non-empty.
def fallbackLoop (urljoin : String → String → String) (doc : NavDoc)
    (base_url base_domain : String) : List String → List String → List String
  | links, [] => links
  | links, sel :: rest =>
    let links' := processFallback urljoin doc base_url base_domain links sel
    if links' ≠ [] then links'
    else fallbackLoop urljoin doc base_url base_domain links' rest

-- app.py lines 117-226, `WebScraper.find_navigation_links` on a fresh scraper:
-- the base domain is derived from `base_url` (lines 122-124), the primary selector
-- chain runs first, and the fallback chain runs only when no links were found.
def find_navigation_links (urljoin : String → String → String) (doc : NavDoc)
    (base_url : String) : List String :=
  let base_domain := baseDomainOf base_url
  let primary := primaryLoop urljoin doc base_url base_domain ([], false) nav_selectors
  if primary.1 = [] then
    fallbackLoop urljoin doc base_url base_domain primary.1 fallback_selectors
  else primary.1

/-! ## Image locator (`WebScraper.get_image_location`, `WebScraper.find_images`)

An `<img>` element is abstracted by the data the locator reads from the parse
tree: its `src` and `alt` attributes, its ancestor chain (innermost parent
first, as walked via `.parent`), and the heading elements that precede it in
document order (tag name and raw text), from which `find_previous(h)` returns
the last element of tag `h`. -/

structure ImgAncestor where
  name : String
  idAttr : Option String
  classes : List String
deriving DecidableEq

structure ImgElement where
  src : Option String
  alt : Option String
  ancestors : List ImgAncestor
  precedingHeadings : List (String × String)
deriving DecidableEq

-- app.py line 89: the semantic HTML5 sectioning tags.
def semanticTags : List String :=
  ["header", "nav", "main", "section", "article", "aside", "footer"]

-- app.py line 99: the class keyword set.
def locationKeywords : List String :=
  ["header", "nav", "menu", "sidebar", "footer", "content", "main", "banner"]

-- app.py lines 87-104: the `while current and depth < 10` ancestor walk, with the
-- three per-element checks appending to `location_indicators` in source order
-- (semantic tag name, truthy `id` rendered `#id`, first class whose lowercase
-- form contains a keyword, rendered `.class`).
def locWalk : List ImgAncestor → Nat → List String → List String
  | [], _, acc => acc
  | a :: rest, depth, acc =>
    if depth < 10 then
      let acc1 := if a.name ∈ semanticTags then acc ++ [a.name] else acc
      let acc2 :=
        match a.idAttr with
        | some i => if i ≠ "" then acc1 ++ ["#" ++ i] else acc1
        | none => acc1
      let acc3 :=
        match a.classes.find?
            (fun cls => locationKeywords.any (fun k => strSubstrOf k (lowerStr cls))) with
        | some cls => acc2 ++ ["." ++ cls]
        | none => acc2
      locWalk rest (depth + 1) acc3
    else acc

-- Model of `img_element.find_previous(h)`: the nearest preceding element of tag
-- `h` is the last one in the document-order list of preceding headings.
def findPrevious (hs : List (String × String)) (t : String) : Option String :=
  (hs.reverse.find? (fun p => p.1 = t)).map (fun p => p.2)

-- The heading tag priority list of app.py line 109.
def headingTags : List String := ["h1", "h2", "h3", "h4", "h5", "h6"]

-- app.py lines 109-113: take the first tag (in h1..h6 order) whose nearest
-- preceding element has non-empty stripped text.
def headingLoop (hs : List (String × String)) : List String → List String
  | [] => []
  | t :: rest =>
    match findPrevious hs t with
    | some txt =>
      if stripStr txt ≠ "" then ["Near heading: " ++ takeStr 50 (stripStr txt)]
      else headingLoop hs rest
    | none => headingLoop hs rest

-- app.py lines 78-115, `WebScraper.get_image_location`.
def get_image_location (img : ImgElement) : String :=
  let indicators := locWalk img.ancestors 0 []
  let indicators :=
    if indicators = [] then headingLoop img.precedingHeadings headingTags
    else indicators
  if indicators = [] then "Unknown section"
  else joinSep (" > ") indicators.reverse

-- app.py lines 57-63: relative-to-absolute conversion for image `src` values
-- (root-relative srcs go through `urljoin`, unlike navigation hrefs).
def imgAbsolute (urljoin : String → String → String) (base_url src : String) : String :=
  if strStartsWith src ("//") then "https:" ++ src
  else if strStartsWith src ("/") then urljoin base_url src
  else if !(strStartsWith src ("http://") || strStartsWith src ("https://")) then
    urljoin base_url src
  else src

structure ImgRecord where
  url : String
  alt : String
  location : String
  index : Nat
  element : ImgElement
deriving DecidableEq

-- app.py lines 52-74: the `for idx, img in enumerate(img_tags)` loop; images with
-- a missing or empty `src` are skipped but still counted by `enumerate`.
def findImagesAux (urljoin : String → String → String) (base_url : String) :
    Nat → List ImgElement → List ImgRecord
  | _, [] => []
  | idx, img :: rest =>
    match img.src with
    | none => findImagesAux urljoin base_url (idx + 1) rest
    | some src =>
      if src = "" then findImagesAux urljoin base_url (idx + 1) rest
      else
        { url := imgAbsolute urljoin base_url src
          alt := img.alt.getD ""
          location := get_image_location img
          index := idx + 1
          element := img } :: findImagesAux urljoin base_url (idx + 1) rest

-- app.py lines 45-76, `WebScraper.find_images`.
def find_images (urljoin : String → String → String) (imgs : List ImgElement)
    (base_url : String) : List ImgRecord :=
  findImagesAux urljoin base_url 0 imgs

/-! ## Image acquirer (`WebScraper.download_and_convert_image`)

The HTTP fetch plus PIL decode of app.py lines 281-288 is an oracle
`fetchImg : String → Option ImgResponse`; `none` covers both a failed request
and undecodable bytes (both reach the `except` branch and return `None`).
A successful save is represented by the resulting path, PIL format name, JPEG
quality and image mode.  The `img.save` calls sit inside the same `try`:
Pillow's JPEG encoder raises `OSError` for the transparency/palette modes
RGBA/LA/P that lines 291-293 deliberately keep, so a JPEG-indicated image in
one of those modes reaches the `except` at line 313 and the function returns
`None` with no file written; PNG saves support all four post-conversion
modes and succeed. -/

structure ImgResponse where
  contentType : String
  mode : String
deriving DecidableEq

structure SavedImage where
  path : String
  format : String
  quality : Option Nat
  mode : String
deriving DecidableEq

-- app.py lines 290-295: keep transparency-capable modes, convert the rest to RGB.
def convertMode (m : String) : String :=
  if m = "RGBA" ∨ m = "LA" ∨ m = "P" then m
  else if m ≠ "RGB" then "RGB"
  else m

-- Combined JPEG indication test of app.py line 298.
def jpegIndicated (content_type img_url : String) : Bool :=
  content_type == "image/jpeg" || content_type == "image/jpg"
    || strEndsWith (lowerStr img_url) (".jpg") || strEndsWith (lowerStr img_url) (".jpeg")

-- app.py lines 278-315, `WebScraper.download_and_convert_image`.  In the JPEG
-- branch the `img.save(output_path, 'JPEG', quality=95)` call raises for the
-- kept modes RGBA/LA/P ("cannot write mode … as JPEG"); the exception is
-- caught at line 313 and the function returns `None` with no output file.
def download_and_convert_image (fetchImg : String → Option ImgResponse)
    (img_url output_dir filename : String) : Option SavedImage :=
  match fetchImg img_url with
  | none => none
  | some resp =>
    let content_type := resp.contentType
    let mode := convertMode resp.mode
    if content_type = "image/jpeg" ∨ content_type = "image/jpg"
        ∨ strEndsWith (lowerStr img_url) (".jpg")
        ∨ strEndsWith (lowerStr img_url) (".jpeg") then
      if mode = "RGBA" ∨ mode = "LA" ∨ mode = "P" then none
      else some ⟨pathJoin output_dir (filename ++ ".jpg"), "JPEG", some 95, mode⟩
    else if content_type = "image/png" ∨ strEndsWith (lowerStr img_url) (".png") then
      some ⟨pathJoin output_dir (filename ++ ".png"), "PNG", none, mode⟩
    else
      some ⟨pathJoin output_dir (filename ++ ".png"), "PNG", none, mode⟩

/-! ## Crawler (`WebScraper.crawl_website`)

One successful fetch of a page, as the crawl loop consumes it, is abstracted by
`FetchedPage`: the page title and raw HTML, the links `find_navigation_links`
returned for that page (a Python set, fixed here to its iteration order), and
the number of image records `find_images` produced.  The network and both
extractors are folded into the oracle `fetch : String → Option FetchedPage`
(`none` models a raised fetch exception); the crawl loop of app.py lines
228-276 is embedded verbatim over this oracle.  `attempts` records the URLs
passed to `get_html_content`, in order, so that fetch attempts can be counted.
A fresh `WebScraper` starts with an empty `visited_urls` set. -/

structure FetchedPage where
  title : String
  html : String
  navLinks : List String
  images : Nat
deriving DecidableEq

structure CrawlState where
  pages : List (String × FetchedPage)
  frontier : List String
  visited : List String
  attempts : List String
deriving DecidableEq

def keysOf (l : List (String × FetchedPage)) : List String := l.map Prod.fst

-- Model of Python dict assignment `pages_data[current_url] = …`: replace the
-- value in place when the key exists, otherwise append (insertion order).
def dictInsert (l : List (String × FetchedPage)) (k : String) (v : FetchedPage) :
    List (String × FetchedPage) :=
  match l with
  | [] => [(k, v)]
  | (k', v') :: t => if k' = k then (k, v) :: t else (k', v') :: dictInsert t k v

-- app.py lines 252-254: enqueue each discovered link not already visited and
-- not already queued.
def enqueueLinks (visited frontier links : List String) : List String :=
  links.foldl (fun f l => if l ∉ visited ∧ l ∉ f then f ++ [l] else f) frontier

-- One iteration of the `while` body of app.py lines 233-274 (assuming the
-- frontier is non-empty): pop the head, skip it if visited, otherwise attempt
-- the fetch; on success mark visited, enqueue new links and store the page.
def crawlStep (fetch : String → Option FetchedPage) (s : CrawlState) : CrawlState :=
  match s.frontier with
  | [] => s
  | current_url :: rest =>
    if current_url ∈ s.visited then { s with frontier := rest }
    else
      match fetch current_url with
      | none => { s with frontier := rest, attempts := s.attempts ++ [current_url] }
      | some page =>
        let visited' := s.visited ++ [current_url]
        { pages := dictInsert s.pages current_url page
          frontier := enqueueLinks visited' rest page.navLinks
          visited := visited'
          attempts := s.attempts ++ [current_url] }

-- Negation of the loop guard `while urls_to_visit and len(pages_data) < max_pages`.
def crawlDone (maxPages : Nat) (s : CrawlState) : Bool :=
  s.frontier.isEmpty || decide (maxPages ≤ s.pages.length)

-- Number of page-map keys not yet marked visited; this is 0 on every state the
-- crawl actually reaches and only serves the termination measure below.
def pendingKeys (s : CrawlState) : Nat :=
  ((keysOf s.pages).filter (fun k => !decide (k ∈ s.visited))).length

lemma filter_length_mono {α : Type} (p q : α → Bool) (h : ∀ a, p a = true → q a = true) :
    ∀ l : List α, (l.filter p).length ≤ (l.filter q).length := by
  intro l
  induction l with
  | nil => simp
  | cons a t ih =>
    by_cases hp : p a = true
    · simp [List.filter_cons, hp, h a hp]; omega
    · simp only [List.filter_cons]
      rw [Bool.not_eq_true] at hp
      rw [hp]
      simp only [Bool.false_eq_true, if_false]
      by_cases hq : q a = true
      · simp [hq]; omega
      · rw [Bool.not_eq_true] at hq
        rw [hq]
        simpa using ih

lemma filter_length_strict {α : Type} (p q : α → Bool) (h : ∀ a, p a = true → q a = true)
    (a0 : α) : ∀ l : List α, a0 ∈ l → q a0 = true → p a0 = false →
    (l.filter p).length < (l.filter q).length := by
  intro l
  induction l with
  | nil => simp
  | cons a t ih =>
    intro hmem hq0 hp0
    rcases List.mem_cons.mp hmem with rfl | hmem'
    · simp only [List.filter_cons, hp0, hq0]
      simp only [Bool.false_eq_true, if_false, if_true, List.length_cons]
      exact Nat.lt_succ_of_le (filter_length_mono p q h t)
    · have ht := ih hmem' hq0 hp0
      by_cases hp : p a = true
      · simp [List.filter_cons, hp, h a hp]; omega
      · rw [Bool.not_eq_true] at hp
        simp only [List.filter_cons, hp, Bool.false_eq_true, if_false]
        by_cases hq : q a = true
        · simp [hq]; omega
        · rw [Bool.not_eq_true] at hq
          rw [hq]
          simpa using ht

lemma dictInsert_of_not_mem (l : List (String × FetchedPage)) (k : String)
    (v : FetchedPage) (h : k ∉ keysOf l) : dictInsert l k v = l ++ [(k, v)] := by
  induction l with
  | nil => rfl
  | cons a t ih =>
    simp only [keysOf, List.map_cons, List.mem_cons] at h
    push_neg at h
    simp only [dictInsert]
    rw [if_neg (by exact fun e => h.1 e.symm)]
    rw [ih (by simpa [keysOf] using h.2)]
    rfl

lemma keysOf_dictInsert_of_mem (l : List (String × FetchedPage)) (k : String)
    (v : FetchedPage) (h : k ∈ keysOf l) : keysOf (dictInsert l k v) = keysOf l := by
  induction l with
  | nil => simp [keysOf] at h
  | cons a t ih =>
    simp only [dictInsert]
    by_cases he : a.1 = k
    · rw [if_pos he]
      simp [keysOf, he]
    · rw [if_neg he]
      simp only [keysOf, List.map_cons] at *
      rcases List.mem_cons.mp h with h1 | h2
      · exact absurd h1.symm he
      · rw [ih h2]

lemma length_dictInsert_of_mem (l : List (String × FetchedPage)) (k : String)
    (v : FetchedPage) (h : k ∈ keysOf l) : (dictInsert l k v).length = l.length := by
  induction l with
  | nil => simp [keysOf] at h
  | cons a t ih =>
    simp only [dictInsert]
    by_cases he : a.1 = k
    · rw [if_pos he]; simp
    · rw [if_neg he]
      simp only [keysOf, List.map_cons, List.mem_cons] at h
      rcases h with h1 | h2
      · exact absurd h1.symm he
      · simp [ih h2]

lemma crawlStep_measure (fetch : String → Option FetchedPage) (maxPages : Nat)
    (s : CrawlState) (hf : s.frontier ≠ []) (hp : s.pages.length < maxPages) :
    (maxPages - (crawlStep fetch s).pages.length) + pendingKeys (crawlStep fetch s)
        < (maxPages - s.pages.length) + pendingKeys s
      ∨ ((maxPages - (crawlStep fetch s).pages.length) + pendingKeys (crawlStep fetch s)
          = (maxPages - s.pages.length) + pendingKeys s
        ∧ (crawlStep fetch s).frontier.length < s.frontier.length) := by
  obtain ⟨u, rest, hfr⟩ : ∃ u rest, s.frontier = u :: rest := by
    cases hc : s.frontier with
    | nil => exact absurd hc hf
    | cons a t => exact ⟨a, t, rfl⟩
  by_cases hv : u ∈ s.visited
  · right
    constructor
    · simp [crawlStep, hfr, hv, pendingKeys, keysOf]
    · simp [crawlStep, hfr, hv]
  · cases hfetch : fetch u with
    | none =>
      right
      constructor
      · simp [crawlStep, hfr, hv, hfetch, pendingKeys, keysOf]
      · simp [crawlStep, hfr, hv, hfetch]
    | some page =>
      left
      have hstep : crawlStep fetch s =
          { pages := dictInsert s.pages u page
            frontier := enqueueLinks (s.visited ++ [u]) rest page.navLinks
            visited := s.visited ++ [u]
            attempts := s.attempts ++ [u] } := by
        simp [crawlStep, hfr, hv, hfetch]
      have himp : ∀ a : String,
          (!decide (a ∈ s.visited ++ [u])) = true → (!decide (a ∈ s.visited)) = true := by
        intro a ha
        simp only [Bool.not_eq_true', decide_eq_false_iff_not, List.mem_append,
          List.mem_singleton] at *
        exact fun hmem => ha (Or.inl hmem)
      by_cases hk : u ∈ keysOf s.pages
      · -- replaced key: page count unchanged, one pending key becomes visited
        have hlen : (dictInsert s.pages u page).length = s.pages.length :=
          length_dictInsert_of_mem s.pages u page hk
        have hkeys : keysOf (dictInsert s.pages u page) = keysOf s.pages :=
          keysOf_dictInsert_of_mem s.pages u page hk
        have hstrict : pendingKeys (crawlStep fetch s) < pendingKeys s := by
          rw [hstep]
          simp only [pendingKeys, hkeys]
          apply filter_length_strict _ _ himp u _ hk
          · simp [hv]
          · simp
        rw [hstep] at hstrict ⊢
        simp only [hlen]
        omega
      · -- fresh key: page count grows by one under the budget
        have happ : dictInsert s.pages u page = s.pages ++ [(u, page)] :=
          dictInsert_of_not_mem s.pages u page hk
        have hmono : pendingKeys (crawlStep fetch s) ≤ pendingKeys s := by
          rw [hstep]
          simp only [pendingKeys, happ, keysOf, List.map_append, List.map_cons,
            List.map_nil, List.filter_append]
          have hu : (!decide (u ∈ s.visited ++ [u])) = false := by simp
          simp only [List.filter_cons, hu, Bool.false_eq_true, if_false,
            List.filter_nil, List.append_nil]
          exact filter_length_mono _ _ himp _
        have hlen : (crawlStep fetch s).pages.length = s.pages.length + 1 := by
          rw [hstep]; simp [happ]
        rw [hlen]
        omega

-- app.py lines 233-274: the crawl loop, iterated to its terminal condition.
def crawlLoop (fetch : String → Option FetchedPage) (maxPages : Nat)
    (s : CrawlState) : CrawlState :=
  if h : crawlDone maxPages s then s
  else crawlLoop fetch maxPages (crawlStep fetch s)
termination_by ((maxPages - s.pages.length) + pendingKeys s, s.frontier.length)
decreasing_by
  simp only [crawlDone, Bool.or_eq_true, List.isEmpty_iff, decide_eq_true_eq] at h
  push_neg at h
  rcases crawlStep_measure fetch maxPages s h.1 h.2 with hlt | ⟨heq, hlt⟩
  · exact Prod.Lex.left _ _ hlt
  · rw [heq]
    exact Prod.Lex.right _ hlt

-- The same loop with explicit fuel; used to evaluate concrete crawls.
def crawlFuel (fetch : String → Option FetchedPage) (maxPages : Nat) :
    Nat → CrawlState → CrawlState
  | 0, s => s
  | Nat.succ n, s =>
    if crawlDone maxPages s then s
    else crawlFuel fetch maxPages n (crawlStep fetch s)

-- The state at entry to `crawl_website`: empty page map, the frontier seeded
-- with the start URL (app.py lines 230-231), and the fresh scraper's empty
-- `visited_urls` set (app.py line 31).
def initState (start_url : String) : CrawlState := ⟨[], [start_url], [], []⟩

-- app.py lines 228-276, `WebScraper.crawl_website`; the source returns the
-- `pages` field, the rest of the state is exposed for specification.
def crawl_website (fetch : String → Option FetchedPage) (start_url : String)
    (max_pages : Nat) : CrawlState :=
  crawlLoop fetch max_pages (initState start_url)

lemma crawlLoop_eq_done (fetch : String → Option FetchedPage) (maxPages : Nat)
    (s : CrawlState) (h : crawlDone maxPages s = true) :
    crawlLoop fetch maxPages s = s := by
  unfold crawlLoop
  simp [h]

lemma crawlLoop_eq_cont (fetch : String → Option FetchedPage) (maxPages : Nat)
    (s : CrawlState) (h : crawlDone maxPages s = false) :
    crawlLoop fetch maxPages s = crawlLoop fetch maxPages (crawlStep fetch s) := by
  conv_lhs => unfold crawlLoop
  simp [h]

lemma crawlFuel_eq_crawlLoop (fetch : String → Option FetchedPage) (maxPages : Nat) :
    ∀ (n : Nat) (s : CrawlState),
      crawlDone maxPages (crawlFuel fetch maxPages n s) = true →
      crawlLoop fetch maxPages s = crawlFuel fetch maxPages n s := by
  intro n
  induction n with
  | zero => intro s h; exact crawlLoop_eq_done fetch maxPages s h
  | succ n ih =>
    intro s h
    by_cases hd : crawlDone maxPages s = true
    · simp only [crawlFuel, hd, if_true]
      exact crawlLoop_eq_done fetch maxPages s hd
    · have hd' : crawlDone maxPages s = false := by
        rw [Bool.not_eq_true] at hd; exact hd
      simp only [crawlFuel, hd', Bool.false_eq_true, if_false] at h ⊢
      rw [crawlLoop_eq_cont fetch maxPages s hd']
      exact ih (crawlStep fetch s) h

/-! ## Supporting lemmas for the navigation link extractor -/

lemma foldl_preserve {α β : Type} (f : β → α → β) (P : β → Prop)
    (h : ∀ b a, P b → P (f b a)) : ∀ (l : List α) (b : β), P b → P (l.foldl f b) := by
  intro l
  induction l with
  | nil => intro b hb; exact hb
  | cons a t ih => intro b hb; exact ih (f b a) (h b a hb)

-- Every link present after `processHref` was already present or is the
-- fragment-stripped form of an absolute URL that passed the base-domain test.
def GoodLink (bd u : String) : Prop :=
  ∃ a, strStartsWith a bd = true ∧ u = stripFragment a

lemma processHref_good (urljoin : String → String → String) (b bd : String)
    (acc : List String × Bool) (href : String)
    (h : ∀ u ∈ acc.1, GoodLink bd u) :
    ∀ u ∈ (processHref urljoin b bd acc href).1, GoodLink bd u := by
  intro u hu
  simp only [processHref] at hu
  split at hu
  · exact h u hu
  · split at hu
    · rename_i hdom
      simp only [setAdd] at hu
      split at hu
      · exact h u hu
      · rcases List.mem_append.mp hu with h1 | h2
        · exact h u h1
        · exact ⟨navAbsolute urljoin b bd href, hdom, (List.mem_singleton.mp h2)⟩
    · exact h u hu

lemma processSelector_good (urljoin : String → String → String) (doc : NavDoc)
    (b bd : String) (acc : List String × Bool) (sel : String)
    (h : ∀ u ∈ acc.1, GoodLink bd u) :
    ∀ u ∈ (processSelector urljoin doc b bd acc sel).1, GoodLink bd u := by
  unfold processSelector
  refine foldl_preserve _ (fun a => ∀ u ∈ a.1, GoodLink bd u) ?_ _ acc h
  intro a el ha
  exact foldl_preserve _ (fun a => ∀ u ∈ a.1, GoodLink bd u)
    (fun a href ha' => processHref_good urljoin b bd a href ha') el a ha

lemma primaryLoop_good (urljoin : String → String → String) (doc : NavDoc)
    (b bd : String) : ∀ (sels : List String) (acc : List String × Bool),
    (∀ u ∈ acc.1, GoodLink bd u) →
    ∀ u ∈ (primaryLoop urljoin doc b bd acc sels).1, GoodLink bd u := by
  intro sels
  induction sels with
  | nil => intro acc h; exact h
  | cons sel rest ih =>
    intro acc h
    simp only [primaryLoop]
    split
    · exact processSelector_good urljoin doc b bd acc sel h
    · exact ih _ (processSelector_good urljoin doc b bd acc sel h)

lemma processFallback_good (urljoin : String → String → String) (doc : NavDoc)
    (b bd : String) (links : List String) (sel : String)
    (h : ∀ u ∈ links, GoodLink bd u) :
    ∀ u ∈ processFallback urljoin doc b bd links sel, GoodLink bd u := by
  unfold processFallback
  refine foldl_preserve _ (fun a => ∀ u ∈ a, GoodLink bd u) ?_ _ links h
  intro a hOpt ha
  intro u hu
  dsimp only at hu
  split at hu
  · exact ha u hu
  · split at hu
    · exact ha u hu
    · split at hu
      · rename_i href _ hdom
        simp only [setAdd] at hu
        split at hu
        · exact ha u hu
        · rcases List.mem_append.mp hu with h1 | h2
          · exact ha u h1
          · exact ⟨navAbsolute urljoin b bd href, hdom, (List.mem_singleton.mp h2)⟩
      · exact ha u hu

lemma fallbackLoop_good (urljoin : String → String → String) (doc : NavDoc)
    (b bd : String) : ∀ (sels : List String) (links : List String),
    (∀ u ∈ links, GoodLink bd u) →
    ∀ u ∈ fallbackLoop urljoin doc b bd links sels, GoodLink bd u := by
  intro sels
  induction sels with
  | nil => intro links h; exact h
  | cons sel rest ih =>
    intro links h
    simp only [fallbackLoop]
    split
    · exact processFallback_good urljoin doc b bd links sel h
    · exact ih _ (processFallback_good urljoin doc b bd links sel h)

lemma find_navigation_links_good (urljoin : String → String → String) (doc : NavDoc)
    (base_url : String) :
    ∀ u ∈ find_navigation_links urljoin doc base_url,
      GoodLink (baseDomainOf base_url) u := by
  intro u hu
  simp only [find_navigation_links] at hu
  have hprimary := primaryLoop_good urljoin doc base_url (baseDomainOf base_url)
    nav_selectors ([], false) (by intro v hv; simp at hv)
  split at hu
  · exact fallbackLoop_good urljoin doc base_url (baseDomainOf base_url)
      fallback_selectors _ hprimary u hu
  · exact hprimary u hu

lemma prefix_takeWhile (p : Char → Bool) :
    ∀ (b a : List Char), b.isPrefixOf a = true → (∀ c ∈ b, p c = true) →
      b.isPrefixOf (a.takeWhile p) = true := by
  intro b
  induction b with
  | nil => intro a _ _; simp [List.isPrefixOf]
  | cons c bs ih =>
    intro a hpre hall
    cases a with
    | nil => simp [List.isPrefixOf] at hpre
    | cons x xs =>
      simp only [List.isPrefixOf, Bool.and_eq_true, beq_iff_eq] at hpre
      have hc : p x = true := by rw [← hpre.1]; exact hall c (List.mem_cons_self c bs)
      rw [List.takeWhile_cons, if_pos hc]
      simp only [List.isPrefixOf, Bool.and_eq_true, beq_iff_eq]
      exact ⟨hpre.1, ih xs hpre.2 (fun d hd => hall d (List.mem_cons_of_mem c hd))⟩

lemma mem_takeWhile_pred {α : Type} (p : α → Bool) :
    ∀ (l : List α) (a : α), a ∈ l.takeWhile p → p a = true := by
  intro l
  induction l with
  | nil => simp
  | cons x xs ih =>
    intro a ha
    rw [List.takeWhile_cons] at ha
    by_cases hx : p x = true
    · rw [if_pos hx] at ha
      rcases List.mem_cons.mp ha with rfl | h2
      · exact hx
      · exact ih a h2
    · rw [if_neg hx] at ha; simp at ha

lemma stripFragment_no_hash (a : String) : ∀ c ∈ (stripFragment a).data, (c != '#') = true := by
  intro c hc
  simp only [stripFragment] at hc
  exact mem_takeWhile_pred (fun x => x != '#') a.data c hc

/-! ## Claims about URL handling (C2, C5) -/

-- Oracle standing in for `urllib.parse.urljoin` in concrete instances whose
-- evaluation never reaches the relative-resolution branch.
def uj0 : String → String → String := fun _ r => r

-- A document whose single `<nav>` element links to a host that merely extends
-- the seed host as a string.
def docC2 : NavDoc :=
  ⟨fun s => if s = "nav" then [["https://a.com.evil.org/x"]] else [],
   fun _ => []⟩

/-- C2, counterexample: `find_navigation_links` on a seed of host `a.com`
returns a link on host `a.com.evil.org`, whose scheme+host differ from the
seed's, because the in-domain test is a string-prefix comparison. -/
theorem c2_counterexample :
    ("https://a.com.evil.org/x") ∈ find_navigation_links uj0 docC2 ("https://a.com/")
      ∧ baseDomainOf ("https://a.com.evil.org/x") ≠ baseDomainOf ("https://a.com/") := by
  constructor
  · decide
  · decide

/-- C2, amended: every URL returned by `find_navigation_links` starts (as a
string) with the base domain `scheme://host` derived from the seed URL; hosts
whose string merely extends the seed host therefore pass the test and can be
included, as the counterexample shows. -/
theorem c2_domain_check_is_string_prefix (urljoin : String → String → String)
    (doc : NavDoc) (base_url : String)
    (hb : ∀ c ∈ (baseDomainOf base_url).data, (c != '#') = true) :
    ∀ u ∈ find_navigation_links urljoin doc base_url,
      strStartsWith u (baseDomainOf base_url) = true := by
  intro u hu
  obtain ⟨a, hpre, rfl⟩ := find_navigation_links_good urljoin doc base_url u hu
  unfold strStartsWith at hpre ⊢
  simp only [stripFragment]
  exact prefix_takeWhile _ _ _ hpre hb

/-- C2 witness: the amended theorem applied to the counterexample document. -/
theorem c2_domain_check_is_string_prefix_witness :
    strStartsWith ("https://a.com.evil.org/x") (baseDomainOf ("https://a.com/")) = true :=
  c2_domain_check_is_string_prefix uj0 docC2 ("https://a.com/") (by decide)
    ("https://a.com.evil.org/x") (by decide)

-- A single image whose absolute `src` carries a fragment.
def imgOfSrc (s : String) : ImgElement := ⟨some s, none, [], []⟩

/-- C5, counterexample: image `src` normalization in `find_images` is not
fragment-stripped — an absolute src with a fragment is returned verbatim, and
two srcs differing only in their fragment yield two distinct record URLs. -/
theorem c5_counterexample :
    ((find_images uj0 [imgOfSrc ("https://a.com/p.png#one")] ("https://a.com/")).map
        (fun r => r.url)) = [("https://a.com/p.png#one")]
      ∧ ((find_images uj0 [imgOfSrc ("https://a.com/p.png#one")] ("https://a.com/")).map
          (fun r => r.url))
        ≠ ((find_images uj0 [imgOfSrc ("https://a.com/p.png#two")] ("https://a.com/")).map
          (fun r => r.url)) := by
  constructor
  · decide
  · decide

/-- C5, amended: navigation links are fragment-stripped — no URL returned by
`find_navigation_links` contains a `#` — but image srcs in `find_images` are
not (see the counterexample). -/
theorem c5_nav_links_fragment_free (urljoin : String → String → String)
    (doc : NavDoc) (base_url : String) :
    ∀ u ∈ find_navigation_links urljoin doc base_url, ('#') ∉ u.data := by
  intro u hu hc
  obtain ⟨a, _, rfl⟩ := find_navigation_links_good urljoin doc base_url u hu
  have := stripFragment_no_hash a ('#') hc
  simp at this

-- A document whose `<nav>` link carries a fragment.
def docC5 : NavDoc :=
  ⟨fun s => if s = "nav" then [["https://w.com/x#frag"]] else [], fun _ => []⟩

/-- C5 witness: the amended theorem applied to a concrete document whose nav
link carried a fragment; the returned link is the stripped form. -/
theorem c5_nav_links_fragment_free_witness :
    ('#') ∉ ("https://w.com/x").data :=
  c5_nav_links_fragment_free uj0 docC5 ("https://w.com") ("https://w.com/x") (by decide)

/-! ## Claim C4: selector priority short-circuit -/

-- An href passes the filter of app.py lines 162-176 when it is not skipped and
-- its absolute form starts with the base domain; `nav_links_found` is set
-- exactly by such hrefs.
def hrefPasses (urljoin : String → String → String) (b bd href : String) : Bool :=
  !skipHref href && strStartsWith (navAbsolute urljoin b bd href) bd

-- A selector yields a navigation link when some anchor of some matched element
-- passes the filter.
def selYields (urljoin : String → String → String) (doc : NavDoc) (b bd sel : String) :
    Bool :=
  (doc.select sel).any (fun el => el.any (hrefPasses urljoin b bd))

lemma processHref_found (urljoin : String → String → String) (b bd : String)
    (acc : List String × Bool) (href : String) :
    (processHref urljoin b bd acc href).2
      = (acc.2 || hrefPasses urljoin b bd href) := by
  simp only [processHref, hrefPasses]
  by_cases hs : skipHref href = true
  · simp [hs]
  · rw [Bool.not_eq_true] at hs
    by_cases hd : strStartsWith (navAbsolute urljoin b bd href) bd = true
    · simp [hs, hd]
    · rw [Bool.not_eq_true] at hd
      simp [hs, hd]

lemma elemFold_found (urljoin : String → String → String) (b bd : String) :
    ∀ (el : List String) (acc : List String × Bool),
      (el.foldl (processHref urljoin b bd) acc).2
        = (acc.2 || el.any (hrefPasses urljoin b bd)) := by
  intro el
  induction el with
  | nil => intro acc; simp
  | cons href rest ih =>
    intro acc
    simp only [List.foldl_cons, List.any_cons]
    rw [ih, processHref_found, Bool.or_assoc]

lemma processSelector_found (urljoin : String → String → String) (doc : NavDoc)
    (b bd : String) (sel : String) :
    ∀ acc : List String × Bool,
      (processSelector urljoin doc b bd acc sel).2
        = (acc.2 || selYields urljoin doc b bd sel) := by
  unfold processSelector selYields
  generalize doc.select sel = els
  induction els with
  | nil => intro acc; simp
  | cons el rest ih =>
    intro acc
    simp only [List.foldl_cons, List.any_cons]
    rw [ih, elemFold_found, Bool.or_assoc]

lemma processHref_noyield (urljoin : String → String → String) (b bd : String)
    (acc : List String × Bool) (href : String)
    (h : hrefPasses urljoin b bd href = false) :
    processHref urljoin b bd acc href = acc := by
  simp only [hrefPasses, Bool.and_eq_false_iff, Bool.not_eq_false'] at h
  simp only [processHref]
  rcases h with hs | hd
  · rw [if_pos hs]
  · rw [hd]
    by_cases hs : skipHref href = true
    · rw [if_pos hs]
    · rw [Bool.not_eq_true] at hs
      simp [hs]

lemma elemFold_noyield (urljoin : String → String → String) (b bd : String) :
    ∀ (el : List String) (acc : List String × Bool),
      el.any (hrefPasses urljoin b bd) = false →
      el.foldl (processHref urljoin b bd) acc = acc := by
  intro el
  induction el with
  | nil => intro acc _; rfl
  | cons href rest ih =>
    intro acc h
    simp only [List.any_cons, Bool.or_eq_false_iff] at h
    simp only [List.foldl_cons]
    rw [processHref_noyield urljoin b bd acc href h.1]
    exact ih acc h.2

lemma processSelector_noyield (urljoin : String → String → String) (doc : NavDoc)
    (b bd sel : String) (h : selYields urljoin doc b bd sel = false) :
    ∀ acc : List String × Bool, processSelector urljoin doc b bd acc sel = acc := by
  revert h
  unfold processSelector selYields
  generalize doc.select sel = els
  induction els with
  | nil => intro _ acc; rfl
  | cons el rest ih =>
    intro h acc
    simp only [List.any_cons, Bool.or_eq_false_iff] at h
    simp only [List.foldl_cons]
    rw [elemFold_noyield urljoin b bd el acc h.1]
    exact ih h.2 acc

lemma setAdd_ne_nil (l : List String) (x : String) : setAdd l x ≠ [] := by
  unfold setAdd
  split
  · rename_i hmem
    exact List.ne_nil_of_mem hmem
  · simp

lemma processHref_ne_nil (urljoin : String → String → String) (b bd : String)
    (acc : List String × Bool) (href : String) (h : acc.1 ≠ []) :
    (processHref urljoin b bd acc href).1 ≠ [] := by
  simp only [processHref]
  split
  · exact h
  · split
    · exact setAdd_ne_nil _ _
    · exact h

lemma elemFold_ne_nil (urljoin : String → String → String) (b bd : String) :
    ∀ (el : List String) (acc : List String × Bool),
      (acc.1 ≠ [] ∨ el.any (hrefPasses urljoin b bd) = true) →
      (el.foldl (processHref urljoin b bd) acc).1 ≠ [] := by
  intro el
  induction el with
  | nil =>
    intro acc h
    rcases h with h | h
    · exact h
    · simp at h
  | cons href rest ih =>
    intro acc h
    simp only [List.foldl_cons]
    rcases h with h | h
    · exact ih _ (Or.inl (processHref_ne_nil urljoin b bd acc href h))
    · simp only [List.any_cons, Bool.or_eq_true] at h
      rcases h with h | h
      · refine ih _ (Or.inl ?_)
        simp only [processHref, hrefPasses, Bool.and_eq_true, Bool.not_eq_true'] at h ⊢
        rw [h.1, h.2]
        simp only [Bool.false_eq_true, if_false, if_true]
        exact setAdd_ne_nil _ _
      · exact ih _ (Or.inr h)

lemma processSelector_ne_nil (urljoin : String → String → String) (doc : NavDoc)
    (b bd sel : String) (h : selYields urljoin doc b bd sel = true) :
    ∀ acc : List String × Bool, (processSelector urljoin doc b bd acc sel).1 ≠ [] := by
  revert h
  unfold processSelector selYields
  generalize doc.select sel = els
  induction els with
  | nil => intro h; simp at h
  | cons el rest ih =>
    intro h acc
    simp only [List.any_cons, Bool.or_eq_true] at h
    simp only [List.foldl_cons]
    rcases h with h | h
    · -- once non-empty, the remaining elements never shrink the link list
      refine foldl_preserve (fun a el => el.foldl (processHref urljoin b bd) a)
        (fun a : List String × Bool => a.1 ≠ []) ?_ rest _
        (elemFold_ne_nil urljoin b bd el acc (Or.inr h))
      intro a el' ha
      exact foldl_preserve (processHref urljoin b bd)
        (fun a : List String × Bool => a.1 ≠ [])
        (fun a href ha' => processHref_ne_nil urljoin b bd a href ha') el' a ha
    · exact ih h _

lemma primaryLoop_first (urljoin : String → String → String) (doc : NavDoc)
    (b bd : String) :
    ∀ (sels : List String) (sel : String) (acc : List String × Bool),
      acc.2 = false →
      sels.find? (fun s => selYields urljoin doc b bd s) = some sel →
      primaryLoop urljoin doc b bd acc sels
        = processSelector urljoin doc b bd acc sel := by
  intro sels
  induction sels with
  | nil => intro sel acc _ hfind; simp at hfind
  | cons s rest ih =>
    intro sel acc hacc hfind
    by_cases hy : selYields urljoin doc b bd s = true
    · rw [List.find?_cons_of_pos _ hy] at hfind
      injection hfind with hfind
      subst hfind
      simp only [primaryLoop]
      rw [if_pos (by rw [processSelector_found, hacc, hy]; rfl)]
    · rw [Bool.not_eq_true] at hy
      rw [List.find?_cons_of_neg _ (by rw [hy]; simp)] at hfind
      simp only [primaryLoop]
      rw [processSelector_noyield urljoin doc b bd s hy acc]
      rw [if_neg (by rw [hacc]; simp)]
      exact ih sel acc hacc hfind

/-- C4: `find_navigation_links` returns exactly the links collected under the
first selector in `nav_selectors` that yields at least one in-domain link
(priority short-circuit): when `sel` is the first yielding selector, the result
is precisely what processing `sel` alone produces, so links reachable only
under later selectors are excluded. -/
theorem c4_selector_short_circuit (urljoin : String → String → String)
    (doc : NavDoc) (base_url sel : String)
    (h : nav_selectors.find?
        (fun s => selYields urljoin doc base_url (baseDomainOf base_url) s) = some sel) :
    find_navigation_links urljoin doc base_url
      = (processSelector urljoin doc base_url (baseDomainOf base_url) ([], false) sel).1 := by
  have hy : selYields urljoin doc base_url (baseDomainOf base_url) sel = true :=
    List.find?_some h
  have hne := processSelector_ne_nil urljoin doc base_url (baseDomainOf base_url)
    sel hy ([], false)
  have hpl := primaryLoop_first urljoin doc base_url (baseDomainOf base_url)
    nav_selectors sel ([], false) rfl h
  simp only [find_navigation_links]
  rw [hpl, if_neg hne]

-- A document with a `<nav>` element and a `<header>` element that carries an
-- additional link reachable only through the later `header` selector.
def docC4 : NavDoc :=
  ⟨fun s =>
    if s = "nav" then [["/a"]]
    else if s = "header" then [["/a", "/b"]]
    else [],
   fun _ => []⟩

/-- C4 witness: on a document where `<nav>` yields an in-domain link, the
result equals the nav links alone and the header-only link is excluded. -/
theorem c4_selector_short_circuit_witness :
    find_navigation_links uj0 docC4 ("https://s.com/home") = [("https://s.com/a")]
      ∧ ("https://s.com/b") ∉ find_navigation_links uj0 docC4 ("https://s.com/home") := by
  have h := c4_selector_short_circuit uj0 docC4 ("https://s.com/home") ("nav") (by decide)
  rw [h]
  constructor
  · decide
  · decide

/-! ## Claims about the image locator (C6, C7) -/

-- Compositional description of what one ancestor contributes to the indicator
-- list: its tag name when semantic, `#id` for a truthy id, `.class` for the
-- first class whose lowercase form contains a location keyword.
def ancestorIndicators (a : ImgAncestor) : List String :=
  (if a.name ∈ semanticTags then [a.name] else [])
    ++ (match a.idAttr with
        | some i => if i ≠ "" then ["#" ++ i] else []
        | none => [])
    ++ (match a.classes.find?
          (fun cls => locationKeywords.any (fun k => strSubstrOf k (lowerStr cls))) with
        | some cls => ["." ++ cls]
        | none => [])

lemma locWalk_cons (a : ImgAncestor) (rest : List ImgAncestor) (depth : Nat)
    (acc : List String) (hd : depth < 10) :
    locWalk (a :: rest) depth acc = locWalk rest (depth + 1) (acc ++ ancestorIndicators a) := by
  simp only [locWalk, if_pos hd]
  congr 1
  simp only [ancestorIndicators]
  rcases hid : a.idAttr with _ | i
  · by_cases hn : a.name ∈ semanticTags <;>
      rcases hcls : a.classes.find?
          (fun cls => locationKeywords.any (fun k => strSubstrOf k (lowerStr cls)))
        with _ | cls <;>
      simp [hn, hcls, List.append_assoc]
  · by_cases hi : i ≠ "" <;>
      by_cases hn : a.name ∈ semanticTags <;>
      rcases hcls : a.classes.find?
          (fun cls => locationKeywords.any (fun k => strSubstrOf k (lowerStr cls)))
        with _ | cls <;>
      simp [hn, hi, hcls, List.append_assoc]

lemma locWalk_eq_take :
    ∀ (l : List ImgAncestor) (depth : Nat) (acc : List String),
      locWalk l depth acc = acc ++ (l.take (10 - depth)).flatMap ancestorIndicators := by
  intro l
  induction l with
  | nil => intro depth acc; simp [locWalk]
  | cons a rest ih =>
    intro depth acc
    by_cases hd : depth < 10
    · rw [locWalk_cons a rest depth acc hd, ih]
      have h10 : 10 - depth = (10 - (depth + 1)) + 1 := by omega
      rw [h10, List.take_succ_cons, List.flatMap_cons, List.append_assoc]
    · have h0 : 10 - depth = 0 := by omega
      simp [locWalk, hd, h0]

/-- C7: the ancestor walk of `get_image_location` visits at most 10 ancestor
levels and collects, per ancestor in traversal order, the semantic tag name,
`#id`, and `.class` for the first keyword-matching class, as described by
`ancestorIndicators`; the collected indicators are reversed and joined with
`" > "` to form the location label. -/
theorem c7_ancestor_walk (img : ImgElement)
    (h : locWalk img.ancestors 0 [] ≠ []) :
    locWalk img.ancestors 0 [] = (img.ancestors.take 10).flatMap ancestorIndicators
      ∧ get_image_location img
        = joinSep (" > ") ((img.ancestors.take 10).flatMap ancestorIndicators).reverse := by
  have he := locWalk_eq_take img.ancestors 0 []
  simp only [Nat.sub_zero, List.nil_append] at he
  refine ⟨he, ?_⟩
  simp only [get_image_location]
  rw [if_neg h, if_neg h, he]

-- An image inside `<section><div id="gallery" class="x main-content">…` whose
-- walk collects an id, a keyword class and a semantic tag.
def imgC7 : ImgElement :=
  ⟨some ("x"), none,
   [⟨"div", some ("gallery"), ["x", "main-content"]⟩, ⟨"section", none, []⟩],
   []⟩

/-- C7 witness: the theorem applied to a concrete image element; the label
reads outermost-to-innermost. -/
theorem c7_ancestor_walk_witness :
    get_image_location imgC7 = ("section > .main-content > #gallery") := by
  have h := (c7_ancestor_walk imgC7 (by decide)).2
  rw [h]
  decide

-- A heading tag hits when its nearest preceding occurrence has non-empty
-- stripped text (the test of app.py line 111).
def headingHit (hs : List (String × String)) (t : String) : Bool :=
  match findPrevious hs t with
  | some txt => stripStr txt != ""
  | none => false

lemma headingLoop_eq_nil (hs : List (String × String)) :
    ∀ ts : List String, ts.find? (headingHit hs) = none → headingLoop hs ts = [] := by
  intro ts
  induction ts with
  | nil => intro _; rfl
  | cons t rest ih =>
    intro hfind
    rw [List.find?_eq_none] at hfind
    have ht : headingHit hs t = false := by
      have := hfind t (List.mem_cons_self t rest)
      rwa [Bool.not_eq_true] at this
    have hrest : rest.find? (headingHit hs) = none := by
      rw [List.find?_eq_none]
      exact fun x hx => hfind x (List.mem_cons_of_mem t hx)
    cases hfp : findPrevious hs t with
    | none =>
      simp only [headingLoop, hfp]
      exact ih hrest
    | some txt =>
      have hne : ¬stripStr txt ≠ "" := by
        simpa [headingHit, hfp] using ht
      simp only [headingLoop, hfp]
      rw [if_neg hne]
      exact ih hrest

lemma headingLoop_eq_single (hs : List (String × String)) :
    ∀ (ts : List String) (t : String), ts.find? (headingHit hs) = some t →
      ∃ txt, findPrevious hs t = some txt
        ∧ headingLoop hs ts = ["Near heading: " ++ takeStr 50 (stripStr txt)] := by
  intro ts
  induction ts with
  | nil => intro t h; simp at h
  | cons s rest ih =>
    intro t hfind
    by_cases hy : headingHit hs s = true
    · rw [List.find?_cons_of_pos _ hy] at hfind
      injection hfind with hfind
      subst hfind
      cases hfp : findPrevious hs s with
      | none => simp [headingHit, hfp] at hy
      | some txt =>
        have hyy : stripStr txt ≠ "" := by
          simpa [headingHit, hfp] using hy
        refine ⟨txt, rfl, ?_⟩
        simp only [headingLoop, hfp]
        rw [if_pos hyy]
    · rw [List.find?_cons_of_neg _ hy] at hfind
      obtain ⟨txt, hfp, heq⟩ := ih t hfind
      refine ⟨txt, hfp, ?_⟩
      cases hfs : findPrevious hs s with
      | none =>
        simp only [headingLoop, hfs]
        exact heq
      | some txts =>
        have hhit : headingHit hs s = false := by rwa [Bool.not_eq_true] at hy
        have hno : ¬stripStr txts ≠ "" := by
          simpa [headingHit, hfs] using hhit
        simp only [headingLoop, hfs]
        rw [if_neg hno]
        exact heq

/-- C6, amended: when the ancestor walk yields no indicators, the label is
determined by heading TAG priority h1..h6 — the first tag in that order whose
nearest preceding occurrence has non-empty stripped text supplies
`"Near heading: "` plus the first 50 characters of that heading's stripped
text (not the nearest preceding non-empty heading in document order); if no
tag qualifies the label is exactly `"Unknown section"`. -/
theorem c6_heading_fallback_priority (img : ImgElement) (t txt : String)
    (hwalk : locWalk img.ancestors 0 [] = []) :
    (headingTags.find? (headingHit img.precedingHeadings) = none →
        get_image_location img = "Unknown section")
      ∧ (headingTags.find? (headingHit img.precedingHeadings) = some t →
          findPrevious img.precedingHeadings t = some txt →
          get_image_location img = "Near heading: " ++ takeStr 50 (stripStr txt)) := by
  constructor
  · intro hnone
    have hempty := headingLoop_eq_nil img.precedingHeadings headingTags hnone
    simp only [get_image_location]
    rw [if_pos hwalk, if_pos hempty]
  · intro hsome hfp
    obtain ⟨txt', hfp', heq⟩ :=
      headingLoop_eq_single img.precedingHeadings headingTags t hsome
    rw [hfp] at hfp'
    injection hfp' with hfp'
    subst hfp'
    simp only [get_image_location]
    rw [if_pos hwalk, heq]
    rw [if_neg (by simp)]
    simp [joinSep]

-- An image with no semantic ancestors, preceded in document order by
-- `<h1>Welcome</h1>` and then (nearer to the image) `<h2>Team</h2>`.
def imgC6 : ImgElement :=
  ⟨some ("x"), none, [⟨"div", none, []⟩], [("h1", "Welcome"), ("h2", "Team")]⟩

-- Modelled from the spec wording of the claim, for comparison only: the text
-- of the nearest preceding heading (any of h1..h6) with non-empty text.
def nearestPrecedingHeadingText (hs : List (String × String)) : Option String :=
  (hs.reverse.find? (fun p => stripStr p.2 != "")).map (fun p => p.2)

/-- C6, counterexample: for an image whose nearest preceding non-empty heading
in document order is the `<h2>Team</h2>`, `get_image_location` still labels it
by the farther `<h1>` because the code scans heading tags in h1..h6 priority
order, not in document order. -/
theorem c6_counterexample :
    get_image_location imgC6 = ("Near heading: Welcome")
      ∧ nearestPrecedingHeadingText imgC6.precedingHeadings = some ("Team")
      ∧ ("Near heading: Welcome") ≠ "Near heading: " ++ takeStr 50 (stripStr ("Team")) := by
  refine ⟨by decide, by decide, by decide⟩

-- The claim's own example: no semantic ancestor, preceded only by `<h2>Team</h2>`.
def imgTeam : ImgElement :=
  ⟨some ("x"), none, [⟨"div", none, []⟩], [("h2", "Team")]⟩

/-- C6 witness: the amended theorem applied to the claim's `<h2>Team</h2>`
example, where h1 does not occur, yields the label `"Near heading: Team"`. -/
theorem c6_heading_fallback_priority_witness :
    get_image_location imgTeam = ("Near heading: Team") := by
  have h := (c6_heading_fallback_priority imgTeam ("h2") ("Team") (by decide)).2
    (by decide) (by decide)
  rw [h]
  decide

/-! ## Claim C10: image records, document order and 1-based `index` -/

-- Compositional description of the loop body of `find_images` applied to one
-- `enumerate` pair: skip a missing or empty src, otherwise build the record
-- with a 1-based `index` taken from the enumerate position.
def imgRecordOf (urljoin : String → String → String) (base_url : String)
    (p : Nat × ImgElement) : Option ImgRecord :=
  match p.2.src with
  | none => none
  | some src =>
    if src = "" then none
    else
      some { url := imgAbsolute urljoin base_url src
             alt := p.2.alt.getD ""
             location := get_image_location p.2
             index := p.1 + 1
             element := p.2 }

lemma findImagesAux_eq (urljoin : String → String → String) (base_url : String) :
    ∀ (imgs : List ImgElement) (idx : Nat),
      findImagesAux urljoin base_url idx imgs
        = (List.enumFrom idx imgs).filterMap (imgRecordOf urljoin base_url) := by
  intro imgs
  induction imgs with
  | nil => intro idx; rfl
  | cons img rest ih =>
    intro idx
    rw [List.enumFrom_cons, List.filterMap_cons]
    cases hsrc : img.src with
    | none =>
      simp only [findImagesAux, hsrc, imgRecordOf]
      exact ih (idx + 1)
    | some src =>
      by_cases hempty : src = ""
      · simp only [findImagesAux, hsrc, imgRecordOf, if_pos hempty]
        exact ih (idx + 1)
      · simp only [findImagesAux, hsrc, imgRecordOf, if_neg hempty]
        rw [ih (idx + 1)]

lemma findImagesAux_index_gt (urljoin : String → String → String) (base_url : String) :
    ∀ (imgs : List ImgElement) (idx : Nat) (r : ImgRecord),
      r ∈ findImagesAux urljoin base_url idx imgs → idx < r.index := by
  intro imgs
  induction imgs with
  | nil => intro idx r h; simp [findImagesAux] at h
  | cons img rest ih =>
    intro idx r h
    cases hsrc : img.src with
    | none =>
      simp only [findImagesAux, hsrc] at h
      exact Nat.lt_of_succ_lt (ih (idx + 1) r h)
    | some src =>
      by_cases hempty : src = ""
      · simp only [findImagesAux, hsrc, if_pos hempty] at h
        exact Nat.lt_of_succ_lt (ih (idx + 1) r h)
      · simp only [findImagesAux, hsrc, if_neg hempty] at h
        rcases List.mem_cons.mp h with rfl | h2
        · simp
        · exact Nat.lt_of_succ_lt (ih (idx + 1) r h2)

lemma findImagesAux_pairwise (urljoin : String → String → String) (base_url : String) :
    ∀ (imgs : List ImgElement) (idx : Nat),
      List.Pairwise (· < ·)
        ((findImagesAux urljoin base_url idx imgs).map (fun r => r.index)) := by
  intro imgs
  induction imgs with
  | nil => intro idx; simp [findImagesAux]
  | cons img rest ih =>
    intro idx
    cases hsrc : img.src with
    | none =>
      simp only [findImagesAux, hsrc]
      exact ih (idx + 1)
    | some src =>
      by_cases hempty : src = ""
      · simp only [findImagesAux, hsrc, if_pos hempty]
        exact ih (idx + 1)
      · simp only [findImagesAux, hsrc, if_neg hempty, List.map_cons]
        refine List.Pairwise.cons ?_ (ih (idx + 1))
        intro x hx
        obtain ⟨r, hr, rfl⟩ := List.mem_map.mp hx
        exact findImagesAux_index_gt urljoin base_url rest (idx + 1) r hr

lemma findImagesAux_src (urljoin : String → String → String) (base_url : String) :
    ∀ (imgs : List ImgElement) (idx : Nat) (r : ImgRecord),
      r ∈ findImagesAux urljoin base_url idx imgs →
      ∃ s, r.element.src = some s ∧ s ≠ "" := by
  intro imgs
  induction imgs with
  | nil => intro idx r h; simp [findImagesAux] at h
  | cons img rest ih =>
    intro idx r h
    cases hsrc : img.src with
    | none =>
      simp only [findImagesAux, hsrc] at h
      exact ih (idx + 1) r h
    | some src =>
      by_cases hempty : src = ""
      · simp only [findImagesAux, hsrc, if_pos hempty] at h
        exact ih (idx + 1) r h
      · simp only [findImagesAux, hsrc, if_neg hempty] at h
        rcases List.mem_cons.mp h with rfl | h2
        · exact ⟨src, hsrc, hempty⟩
        · exact ih (idx + 1) r h2

-- A src-less image followed by a real one: one record, carrying ordinal 2.
def imgsC10 : List ImgElement := [⟨none, none, [], []⟩, imgOfSrc ("http://a/i.png")]

/-- C10: `find_images` returns records in document order with strictly
increasing 1-based `index` values counted over all `img` tags including the
skipped src-less ones (the `enumerate`/`filterMap` characterization), every
record stems from an element with a present non-empty `src`, and on a page
whose first `img` lacks a src the single returned record carries index 2,
exceeding the count of returned records. -/
theorem c10_image_indices (urljoin : String → String → String) (base_url : String) :
    (∀ (imgs : List ImgElement) (idx : Nat),
        findImagesAux urljoin base_url idx imgs
          = (List.enumFrom idx imgs).filterMap (imgRecordOf urljoin base_url))
      ∧ (∀ imgs : List ImgElement,
          List.Pairwise (· < ·)
            ((find_images urljoin imgs base_url).map (fun r => r.index)))
      ∧ (∀ (imgs : List ImgElement) (r : ImgRecord),
          r ∈ find_images urljoin imgs base_url →
          ∃ s, r.element.src = some s ∧ s ≠ "")
      ∧ ((find_images urljoin imgsC10 base_url).map (fun r => r.index) = [2]) := by
  refine ⟨findImagesAux_eq urljoin base_url, ?_, ?_, ?_⟩
  · intro imgs
    exact findImagesAux_pairwise urljoin base_url imgs 0
  · intro imgs r h
    exact findImagesAux_src urljoin base_url imgs 0 r h
  · rfl

-- The single record produced from `imgsC10`.
def recC10 : ImgRecord :=
  ⟨"http://a/i.png", "", "Unknown section", 2, imgOfSrc ("http://a/i.png")⟩

/-- C10 witness: the non-empty-src conjunct applied to the concrete record of
`imgsC10`. -/
theorem c10_image_indices_witness :
    ∃ s, recC10.element.src = some s ∧ s ≠ "" :=
  (c10_image_indices uj0 ("http://b/")).2.2.1 imgsC10 recC10 (by decide)

/-! ## Claim C8: image acquisition format decision -/

-- Responses used by the concrete format-decision instances: a palette GIF, an
-- RGB JPEG served from a `.jpg`-suffixed URL, and PNG-with-alpha data served
-- from a `.jpg`-suffixed URL (which routes it into the JPEG branch).
def fetchGif : String → Option ImgResponse := fun _ => some ⟨"image/gif", "P"⟩
def fetchJpgSuffix : String → Option ImgResponse := fun _ => some ⟨"", "RGB"⟩
def fetchJpgRGBA : String → Option ImgResponse := fun _ => some ⟨"", "RGBA"⟩

/-- C8, counterexample: a successfully downloaded and decoded image need not
produce an output file — RGBA data from a `.jpg`-suffixed URL is routed into
the JPEG branch, where Pillow's encoder cannot write the kept RGBA mode; the
exception is caught and `download_and_convert_image` returns no saved file. -/
theorem c8_counterexample :
    download_and_convert_image fetchJpgRGBA ("http://x/c.jpg") ("out") ("h") = none
      ∧ fetchJpgRGBA ("http://x/c.jpg") ≠ none := by
  constructor
  · decide
  · decide

/-- C8, amended: for every fetched-and-decoded image, when the content-type or
URL suffix indicates JPEG the output is `<output_dir>/<filename>.jpg` saved as
JPEG at quality 95 provided the kept mode is writable as JPEG — a kept
RGBA/LA/P mode makes the JPEG save raise, so the image is skipped with no
output file — and otherwise the output is `<output_dir>/<filename>.png` saved
as PNG (alpha/palette preserved): a GIF yields a `.png` output and a
`.jpg`-suffixed RGB JPEG yields a `.jpg` output. -/
theorem c8_format_decision (fetchImg : String → Option ImgResponse)
    (img_url output_dir filename : String) (resp : ImgResponse)
    (h : fetchImg img_url = some resp) :
    (jpegIndicated resp.contentType img_url = true →
        (convertMode resp.mode = "RGBA" ∨ convertMode resp.mode = "LA"
            ∨ convertMode resp.mode = "P") →
        download_and_convert_image fetchImg img_url output_dir filename = none)
      ∧ (jpegIndicated resp.contentType img_url = true →
          ¬(convertMode resp.mode = "RGBA" ∨ convertMode resp.mode = "LA"
              ∨ convertMode resp.mode = "P") →
          download_and_convert_image fetchImg img_url output_dir filename
            = some ⟨pathJoin output_dir (filename ++ ".jpg"), "JPEG", some 95,
                convertMode resp.mode⟩)
      ∧ (jpegIndicated resp.contentType img_url = false →
          download_and_convert_image fetchImg img_url output_dir filename
            = some ⟨pathJoin output_dir (filename ++ ".png"), "PNG", none,
                convertMode resp.mode⟩)
      ∧ download_and_convert_image fetchGif ("http://x/a.gif") ("out") ("f")
          = some ⟨("out/f.png"), "PNG", none, ("P")⟩
      ∧ download_and_convert_image fetchJpgSuffix ("http://x/b.jpg") ("out") ("g")
          = some ⟨("out/g.jpg"), "JPEG", some 95, ("RGB")⟩
      ∧ download_and_convert_image fetchJpgRGBA ("http://x/c.jpg") ("out") ("h")
          = none := by
  have hcond : (resp.contentType = "image/jpeg" ∨ resp.contentType = "image/jpg"
      ∨ strEndsWith (lowerStr img_url) (".jpg") = true
      ∨ strEndsWith (lowerStr img_url) (".jpeg") = true)
      ↔ jpegIndicated resp.contentType img_url = true := by
    simp [jpegIndicated, or_assoc]
  refine ⟨?_, ?_, ?_, by decide, by decide, by decide⟩
  · intro hj hbad
    simp only [download_and_convert_image, h]
    rw [if_pos (hcond.mpr hj), if_pos hbad]
  · intro hj hgood
    simp only [download_and_convert_image, h]
    rw [if_pos (hcond.mpr hj), if_neg hgood]
  · intro hj
    simp only [download_and_convert_image, h]
    rw [if_neg (fun hc => by
      have h2 := hcond.mp hc; rw [hj] at h2; exact Bool.false_ne_true h2)]
    rw [ite_self]

/-- C8 witness: the amended theorem applied to the `.jpg`-suffixed RGB JPEG,
exercising the successful JPEG branch. -/
theorem c8_format_decision_witness :
    download_and_convert_image fetchJpgSuffix ("http://x/b.jpg") ("out") ("g")
      = some ⟨pathJoin ("out") ("g" ++ ".jpg"), "JPEG", some 95, convertMode ("RGB")⟩ :=
  (c8_format_decision fetchJpgSuffix ("http://x/b.jpg") ("out") ("g") ⟨"", "RGB"⟩
    rfl).2.1 (by decide) (by decide)

/-! ## Supporting lemmas for the crawl loop -/

lemma crawlLoop_inv (fetch : String → Option FetchedPage) (maxPages : Nat)
    (P : CrawlState → Prop)
    (hstep : ∀ s, crawlDone maxPages s = false → P s → P (crawlStep fetch s)) :
    ∀ s, P s → P (crawlLoop fetch maxPages s) := by
  intro s
  induction s using crawlLoop.induct fetch maxPages with
  | case1 s hdone =>
    intro hp
    rw [crawlLoop_eq_done fetch maxPages s hdone]
    exact hp
  | case2 s hdone ih =>
    intro hp
    have hfalse : crawlDone maxPages s = false := by rwa [Bool.not_eq_true] at hdone
    rw [crawlLoop_eq_cont fetch maxPages s hfalse]
    exact ih (hstep s hfalse hp)

lemma crawlStep_pages_bounds (fetch : String → Option FetchedPage) (s : CrawlState) :
    s.pages.length ≤ (crawlStep fetch s).pages.length
      ∧ (crawlStep fetch s).pages.length ≤ s.pages.length + 1 := by
  cases hfr : s.frontier with
  | nil => simp [crawlStep, hfr]
  | cons u rest =>
    by_cases hv : u ∈ s.visited
    · simp [crawlStep, hfr, hv]
    · cases hfetch : fetch u with
      | none => simp [crawlStep, hfr, hv, hfetch]
      | some p =>
        simp only [crawlStep, hfr, if_neg hv, hfetch]
        by_cases hk : u ∈ keysOf s.pages
        · simp [length_dictInsert_of_mem s.pages u p hk]
        · rw [dictInsert_of_not_mem s.pages u p hk]
          simp

lemma crawlDone_false_lt (maxPages : Nat) (s : CrawlState)
    (h : crawlDone maxPages s = false) :
    s.frontier ≠ [] ∧ s.pages.length < maxPages := by
  constructor
  · intro hnil
    simp [crawlDone, hnil] at h
  · by_contra hge
    push_neg at hge
    simp [crawlDone, hge] at h

lemma crawlLoop_pages_le (fetch : String → Option FetchedPage) (maxPages : Nat) :
    ∀ s, s.pages.length ≤ maxPages →
      (crawlLoop fetch maxPages s).pages.length ≤ maxPages := by
  refine crawlLoop_inv fetch maxPages (fun s => s.pages.length ≤ maxPages) ?_
  intro s hdone _
  have hlt := (crawlDone_false_lt maxPages s hdone).2
  have := (crawlStep_pages_bounds fetch s).2
  omega

lemma crawlLoop_pages_mono (fetch : String → Option FetchedPage) (maxPages : Nat)
    (s : CrawlState) :
    s.pages.length ≤ (crawlLoop fetch maxPages s).pages.length := by
  refine crawlLoop_inv fetch maxPages
    (fun t => s.pages.length ≤ t.pages.length) ?_ s (Nat.le_refl _)
  intro t _ ht
  exact Nat.le_trans ht (crawlStep_pages_bounds fetch t).1

/-! ## Claim C1: crawl invariants -/

-- The crawl invariant: a duplicate-free frontier disjoint from the visited
-- set, and a page map with duplicate-free keys all of which are visited.
abbrev InvC1 (s : CrawlState) : Prop :=
  s.frontier.Nodup ∧ (∀ u ∈ s.visited, u ∉ s.frontier)
    ∧ (keysOf s.pages).Nodup ∧ (∀ k ∈ keysOf s.pages, k ∈ s.visited)

lemma nodup_append_singleton (l : List String) (x : String)
    (hl : l.Nodup) (hx : x ∉ l) : (l ++ [x]).Nodup := by
  rw [List.nodup_append]
  refine ⟨hl, List.nodup_singleton x, ?_⟩
  intro a ha hb
  rw [List.mem_singleton] at hb
  subst hb
  exact hx ha

lemma enqueueLinks_nodup (vis : List String) :
    ∀ (links f : List String), f.Nodup → (enqueueLinks vis f links).Nodup := by
  intro links
  induction links with
  | nil => intro f h; exact h
  | cons l rest ih =>
    intro f h
    simp only [enqueueLinks, List.foldl_cons]
    by_cases hc : l ∉ vis ∧ l ∉ f
    · rw [if_pos hc]
      exact ih (f ++ [l]) (nodup_append_singleton f l h hc.2)
    · rw [if_neg hc]
      exact ih f h

lemma enqueueLinks_mem (vis : List String) :
    ∀ (links f : List String) (x : String),
      x ∈ enqueueLinks vis f links → x ∈ f ∨ x ∉ vis := by
  intro links
  induction links with
  | nil => intro f x h; exact Or.inl h
  | cons l rest ih =>
    intro f x h
    simp only [enqueueLinks, List.foldl_cons] at h
    by_cases hc : l ∉ vis ∧ l ∉ f
    · rw [if_pos hc] at h
      rcases ih (f ++ [l]) x h with h1 | h2
      · rcases List.mem_append.mp h1 with h3 | h4
        · exact Or.inl h3
        · rw [List.mem_singleton] at h4
          subst h4
          exact Or.inr hc.1
      · exact Or.inr h2
    · rw [if_neg hc] at h
      exact ih f x h

lemma crawlStep_inv (fetch : String → Option FetchedPage) (s : CrawlState)
    (h : InvC1 s) : InvC1 (crawlStep fetch s) := by
  obtain ⟨hnd, hvf, hknd, hkv⟩ := h
  cases hfr : s.frontier with
  | nil =>
    simp only [crawlStep, hfr]
    exact ⟨hnd, hvf, hknd, hkv⟩
  | cons u rest =>
    have hcons := List.nodup_cons.mp (hfr ▸ hnd)
    by_cases hv : u ∈ s.visited
    · simp only [crawlStep, hfr, if_pos hv]
      refine ⟨hcons.2, ?_, hknd, hkv⟩
      intro v hvm hvr
      exact hvf v hvm (by rw [hfr]; exact List.mem_cons_of_mem u hvr)
    · cases hfetch : fetch u with
      | none =>
        simp only [crawlStep, hfr, if_neg hv, hfetch]
        refine ⟨hcons.2, ?_, hknd, hkv⟩
        intro v hvm hvr
        exact hvf v hvm (by rw [hfr]; exact List.mem_cons_of_mem u hvr)
      | some p =>
        simp only [crawlStep, hfr, if_neg hv, hfetch]
        have hku : u ∉ keysOf s.pages := fun hk => hv (hkv u hk)
        have hkeys : keysOf (dictInsert s.pages u p) = keysOf s.pages ++ [u] := by
          rw [dictInsert_of_not_mem s.pages u p hku]
          simp [keysOf]
        refine ⟨?_, ?_, ?_, ?_⟩
        · exact enqueueLinks_nodup (s.visited ++ [u]) p.navLinks rest hcons.2
        · intro v hvm hvr
          rcases enqueueLinks_mem (s.visited ++ [u]) p.navLinks rest v hvr with h1 | h2
          · rcases List.mem_append.mp hvm with h3 | h4
            · exact hvf v h3 (by rw [hfr]; exact List.mem_cons_of_mem u h1)
            · rw [List.mem_singleton] at h4
              subst h4
              exact hcons.1 h1
          · exact h2 hvm
        · rw [hkeys]
          exact nodup_append_singleton _ u hknd hku
        · intro k hk
          rw [hkeys] at hk
          rcases List.mem_append.mp hk with h3 | h4
          · exact List.mem_append.mpr (Or.inl (hkv k h3))
          · rw [List.mem_singleton] at h4
            subst h4
            exact List.mem_append.mpr (Or.inr (List.mem_singleton.mpr rfl))

/-- C1: throughout every crawl run of `crawl_website`, the invariant
"visited ∩ frontier = ∅ (and the frontier and page-map keys are
duplicate-free)" is preserved by each loop iteration, holds at the initial
state and at every state the fuelled loop reaches, the returned page map
never exceeds `max_pages` entries, and it holds at most one record per
visited URL (duplicate-free keys, all of them visited). -/
theorem c1_crawl_invariants (fetch : String → Option FetchedPage)
    (start_url : String) (max_pages : Nat) :
    (∀ s : CrawlState, InvC1 s → InvC1 (crawlStep fetch s))
      ∧ InvC1 (initState start_url)
      ∧ (∀ n : Nat, InvC1 (crawlFuel fetch max_pages n (initState start_url)))
      ∧ (crawl_website fetch start_url max_pages).pages.length ≤ max_pages
      ∧ (keysOf (crawl_website fetch start_url max_pages).pages).Nodup
      ∧ (∀ k ∈ keysOf (crawl_website fetch start_url max_pages).pages,
          k ∈ (crawl_website fetch start_url max_pages).visited) := by
  have hinit : InvC1 (initState start_url) := by
    refine ⟨List.nodup_singleton _, ?_, List.nodup_nil, ?_⟩ <;>
      intro x hx <;> simp [initState, keysOf] at hx
  have hfuel : ∀ (n : Nat) (s : CrawlState), InvC1 s →
      InvC1 (crawlFuel fetch max_pages n s) := by
    intro n
    induction n with
    | zero => intro s hs; exact hs
    | succ n ih =>
      intro s hs
      simp only [crawlFuel]
      split
      · exact hs
      · exact ih (crawlStep fetch s) (crawlStep_inv fetch s hs)
  have hfinal : InvC1 (crawl_website fetch start_url max_pages) :=
    crawlLoop_inv fetch max_pages InvC1
      (fun s _ hs => crawlStep_inv fetch s hs) (initState start_url) hinit
  refine ⟨fun s hs => crawlStep_inv fetch s hs, hinit,
    fun n => hfuel n (initState start_url) hinit, ?_, hfinal.2.2.1, hfinal.2.2.2⟩
  exact crawlLoop_pages_le fetch max_pages (initState start_url) (Nat.zero_le _)

-- Oracle for the C1 witness: the seed links to one further page.
def fetchW : String → Option FetchedPage :=
  fun u => if u = "a" then some ⟨"A", "", ["b"], 0⟩ else none

/-- C1 witness: the step-preservation conjunct applied at the initial state of
a concrete crawl. -/
theorem c1_crawl_invariants_witness :
    InvC1 (crawlStep fetchW (initState ("a"))) :=
  (c1_crawl_invariants fetchW ("a") 3).1 (initState ("a")) (by decide)

/-! ## Claim C3: failed fetches -/

-- Crawl oracle in which the seed page "a" links to "b" (whose fetch fails)
-- and to "c", and page "c" links to "b" again.
def pageC3a : FetchedPage := ⟨"A", "", ["b", "c"], 0⟩
def pageC3c : FetchedPage := ⟨"C", "", ["b"], 0⟩
def fetchC3 : String → Option FetchedPage :=
  fun u => if u = "a" then some pageC3a else if u = "c" then some pageC3c else none

/-- C3, counterexample: the URL "b" whose fetch fails is rediscovered as a
navigation link of the later page "c", re-enqueued, and fetched a second time:
the crawl attempts its fetch twice. -/
theorem c3_counterexample :
    ((crawl_website fetchC3 ("a") 10).attempts.count ("b")) = 2 := by
  have hbridge : crawl_website fetchC3 ("a") 10
      = crawlFuel fetchC3 10 5 (initState ("a")) :=
    crawlFuel_eq_crawlLoop fetchC3 10 5 (initState ("a")) (by decide)
  rw [hbridge]
  decide

lemma crawlStep_visited_fetch (fetch : String → Option FetchedPage) (s : CrawlState)
    (h : ∀ v ∈ s.visited, fetch v ≠ none) :
    ∀ v ∈ (crawlStep fetch s).visited, fetch v ≠ none := by
  cases hfr : s.frontier with
  | nil => simp only [crawlStep, hfr]; exact h
  | cons u rest =>
    by_cases hv : u ∈ s.visited
    · simp only [crawlStep, hfr, if_pos hv]; exact h
    · cases hfetch : fetch u with
      | none => simp only [crawlStep, hfr, if_neg hv, hfetch]; exact h
      | some p =>
        simp only [crawlStep, hfr, if_neg hv, hfetch]
        intro v hvm
        rcases List.mem_append.mp hvm with h1 | h2
        · exact h v h1
        · rw [List.mem_singleton] at h2
          subst h2
          rw [hfetch]
          exact fun hc => Option.noConfusion hc

/-- C3, amended: a URL whose fetch fails is not marked visited and receives no
page-map entry for the whole run, and at the moment of failure the loop simply
drops it from the frontier and records the attempt; however it is not
permanently skipped — if rediscovered on a later page it is re-enqueued and
fetched again (see the counterexample). -/
theorem c3_failed_fetch_not_recorded (fetch : String → Option FetchedPage)
    (start_url : String) (max_pages : Nat) (u : String) (hu : fetch u = none) :
    u ∉ (crawl_website fetch start_url max_pages).visited
      ∧ u ∉ keysOf (crawl_website fetch start_url max_pages).pages
      ∧ (∀ (s : CrawlState) (rest : List String),
          s.frontier = u :: rest → u ∉ s.visited →
          crawlStep fetch s
            = { s with frontier := rest, attempts := s.attempts ++ [u] }) := by
  have hvisited : ∀ v ∈ (crawl_website fetch start_url max_pages).visited,
      fetch v ≠ none := by
    refine crawlLoop_inv fetch max_pages
      (fun s => ∀ v ∈ s.visited, fetch v ≠ none)
      (fun s _ hs => crawlStep_visited_fetch fetch s hs) (initState start_url) ?_
    intro v hv
    simp [initState] at hv
  have hinv : InvC1 (crawl_website fetch start_url max_pages) := by
    refine crawlLoop_inv fetch max_pages InvC1
      (fun s _ hs => crawlStep_inv fetch s hs) (initState start_url) ?_
    refine ⟨List.nodup_singleton _, ?_, List.nodup_nil, ?_⟩ <;>
      intro x hx <;> simp [initState, keysOf] at hx
  refine ⟨fun hmem => hvisited u hmem hu, ?_, ?_⟩
  · intro hk
    exact hvisited u (hinv.2.2.2 u hk) hu
  · intro s rest hfr hv
    simp [crawlStep, hfr, if_neg hv, hu]

/-- C3 witness: the amended theorem applied to the failing URL "b" of the
concrete crawl. -/
theorem c3_failed_fetch_not_recorded_witness :
    ("b") ∉ (crawl_website fetchC3 ("a") 10).visited :=
  (c3_failed_fetch_not_recorded fetchC3 ("a") 10 ("b") (by decide)).1

/-! ## Claim C9: failure isolation and the empty-map condition -/

def pageC9 : FetchedPage := ⟨"A", "", [], 0⟩
def fetchC9 : String → Option FetchedPage :=
  fun u => if u = "a" then some pageC9 else none

/-- C9, counterexample: with `max_pages = 0` (a legal argument) the crawl
returns an empty page map although the seed URL's fetch would succeed, so
"the page map is empty iff the seed fetch fails" does not hold as stated. -/
theorem c9_counterexample :
    (crawl_website fetchC9 ("a") 0).pages = [] ∧ fetchC9 ("a") ≠ none := by
  constructor
  · have h : crawl_website fetchC9 ("a") 0 = initState ("a") :=
      crawlLoop_eq_done fetchC9 0 (initState ("a")) (by decide)
    rw [h]
    rfl
  · decide

/-- C9, amended: provided `max_pages ≥ 1`, per-page fetch failures are caught
at the item boundary — a failing head of the frontier leaves the collected
pages and the visited set unchanged and traversal continues with the remaining
frontier — and the returned page map is empty iff the seed URL's fetch
fails. -/
theorem c9_failure_isolation (fetch : String → Option FetchedPage)
    (start_url : String) (max_pages : Nat) (h1 : 1 ≤ max_pages) :
    ((crawl_website fetch start_url max_pages).pages = [] ↔ fetch start_url = none)
      ∧ (∀ (s : CrawlState) (u : String) (rest : List String),
          s.frontier = u :: rest → u ∉ s.visited → fetch u = none →
          (crawlStep fetch s).pages = s.pages
            ∧ (crawlStep fetch s).frontier = rest
            ∧ (crawlStep fetch s).visited = s.visited) := by
  have hdone : crawlDone max_pages (initState start_url) = false := by
    simp only [crawlDone, initState, List.isEmpty_cons, Bool.false_or,
      decide_eq_false_iff_not, List.length_nil]
    omega
  constructor
  · constructor
    · intro hempty
      by_contra hne
      obtain ⟨p, hp⟩ := Option.ne_none_iff_exists'.mp hne
      have hstep : (crawlStep fetch (initState start_url)).pages
          = [(start_url, p)] := by
        simp [crawlStep, initState, hp, dictInsert]
      have hcont : crawl_website fetch start_url max_pages
          = crawlLoop fetch max_pages (crawlStep fetch (initState start_url)) :=
        crawlLoop_eq_cont fetch max_pages (initState start_url) hdone
      have hmono := crawlLoop_pages_mono fetch max_pages
        (crawlStep fetch (initState start_url))
      rw [hcont] at hempty
      rw [hempty] at hmono
      rw [hstep] at hmono
      simp at hmono
    · intro hnone
      have hcont : crawl_website fetch start_url max_pages
          = crawlLoop fetch max_pages (crawlStep fetch (initState start_url)) :=
        crawlLoop_eq_cont fetch max_pages (initState start_url) hdone
      have hstep : crawlStep fetch (initState start_url)
          = ⟨[], [], [], [start_url]⟩ := by
        simp [crawlStep, initState, hnone]
      rw [hcont, hstep, crawlLoop_eq_done fetch max_pages _ (by simp [crawlDone])]
  · intro s u rest hfr hv hu
    refine ⟨?_, ?_, ?_⟩ <;> simp [crawlStep, hfr, if_neg hv, hu]

def fetchNone : String → Option FetchedPage := fun _ => none

/-- C9 witness: the amended theorem applied to a crawl whose seed fetch fails
yields the empty page map. -/
theorem c9_failure_isolation_witness :
    (crawl_website fetchNone ("a") 1).pages = [] :=
  ((c9_failure_isolation fetchNone ("a") 1 (by decide)).1).mpr rfl

end WebsiteScraper
